import Mathlib

/-!
Shallow embedding of the deployify deployment engine: the worker retry
handler, the deployment store state updates, provider selection, the
credential vault cipher, the clone fallback protocol, the log bus, the
SSE log stream, the containerized build, and auto-credential lookup.
Each definition is translated from the corresponding TypeScript source
function; definitions whose doc comment starts with `Modelled from the
spec` or `Spec-side` follow the specification text instead and exist
only to be compared against the code-side definitions.
-/

set_option maxRecDepth 100000

namespace Deployify

/-- Substring test on strings, as JavaScript `String.prototype.includes`. -/
def strContains (s pat : String) : Bool :=
  decide (List.IsInfix pat.toList s.toList)

/-! ## C1: retry classification in DeploymentWorker.processDeployment -/

/-- Outcome of the catch handler in `DeploymentWorker.processDeployment`:
either the error is re-raised so the queue retries the job, or the
deployment is marked failed and the job completes. -/
inductive WorkerOutcome
  | retryRequested
  | markedFailed
deriving DecidableEq, Repr

/-- `DeploymentWorker.MAX_RETRIES` (part_005 line 30). -/
def MAX_RETRIES : Nat := 2

/-- The catch handler of `DeploymentWorker.processDeployment`
(part_005 lines 64-91): it re-raises (requesting a queue retry) exactly
when `attemptsMade < MAX_RETRIES` and the error message does not contain
the substring "timeout"; otherwise it marks the deployment failed. -/
def processCatchOutcome (attemptsMade : Nat) (errMsg : String) : WorkerOutcome :=
  if attemptsMade < MAX_RETRIES && !(strContains errMsg "timeout") then
    .retryRequested
  else
    .markedFailed

/-- Error kinds named by the spec retry rule (section 4.9). -/
inductive ErrKind
  | buildError
  | missingCredential
  | containerUnavailable
  | timeoutError
  | transientNetwork
deriving DecidableEq, Repr

/-- The concrete error message the code produces (or surfaces) for each
error kind: build failure from `ContainerService.buildWithLanguageContainer`,
missing credential from `DeploymentWorker.executeDeployment`, a daemon
connection failure, the worker timeout message, and a network failure. -/
def errMessage : ErrKind → String
  | .buildError => "Build failed with exit code 1"
  | .missingCredential =>
      "No credentials available for netlify. Please add credentials in Settings."
  | .containerUnavailable => "connect ECONNREFUSED /var/run/docker.sock"
  | .timeoutError => "Deployment timeout: exceeded 15 minute limit"
  | .transientNetwork => "getaddrinfo ENOTFOUND github.com"

/-- Modelled from the spec retry rule: only transient (network-class)
errors request a retry; BuildError, MissingCredential,
container-daemon-unavailable and TimeoutError are terminal. -/
def specRequestsRetry : ErrKind → Bool
  | .transientNetwork => true
  | _ => false

/-! ## C3: provider selection -/

/-- The fields of `ProjectAnalysis` consulted by provider selection;
`framework` is the detected framework name (empty when unknown). -/
structure ProjectAnalysis where
  framework : String
  type : String
  isStaticHtml : Bool
deriving DecidableEq, Repr

/-- The fall-through of `ProviderDecisionService.selectProvider`
(provider-decision.service.ts lines 41-56): Vercel for Next.js,
Netlify for static projects, else Vercel. -/
def selectProviderDefault (a : ProjectAnalysis) : String :=
  if a.framework = "next" || a.type = "next" then "vercel"
  else if a.isStaticHtml || a.type = "static" then "netlify"
  else "vercel"

/-- `ProviderDecisionService.selectProvider` (lines 26-62): if
`preferProviders` is non-empty its FIRST entry is used when that entry is
literally "netlify" or "vercel"; in every other case the smart defaults
decide. Later entries of `preferProviders` are never consulted. -/
def selectProvider (a : ProjectAnalysis) (preferProviders : List String) : String :=
  match preferProviders with
  | preferred :: _ =>
      if preferred = "netlify" || preferred = "vercel" then preferred
      else selectProviderDefault a
  | [] => selectProviderDefault a

/-- Step 3 of `DeploymentWorker.executeDeployment` (part_005 lines
144-154): an explicitly provided provider is used as-is (no registration
check); otherwise `selectProvider` decides. -/
def workerSelectProvider (provider : Option String) (a : ProjectAnalysis)
    (preferProviders : List String) : String :=
  match provider with
  | some p => p
  | none => selectProvider a preferProviders

/-- The closed set of registered adapters (spec sections 1 and 4.4). -/
def registeredProviders : List String := ["netlify", "vercel"]

/-- Spec-side five-step decision order of section 4.4: explicit provider
if registered; else the first registered entry of `preferred_providers`;
else Vercel for Next.js; else Netlify for static; else Vercel. -/
def specSelectProvider (explicitProvider : Option String)
    (preferred : List String) (a : ProjectAnalysis) : String :=
  let fallthrough :=
    match preferred.filter (registeredProviders.contains ·) with
    | p :: _ => p
    | [] => selectProviderDefault a
  match explicitProvider with
  | some p => if registeredProviders.contains p then p else fallthrough
  | none => fallthrough

/-- A plain SPA detection result (React single page app). -/
def spaAnalysis : ProjectAnalysis :=
  { framework := "react", type := "spa", isStaticHtml := false }

/-! ## C2: DeploymentService.updateDeploymentStatus -/

/-- The columns of the deployments row touched by
`DeploymentService.updateDeploymentStatus`. -/
structure DeploymentRow where
  status : String
  updatedAt : Nat
  startedAt : Option Nat := none
  completedAt : Option Nat := none
  provider : Option String := none
  deploymentUrl : Option String := none
  errorMessage : Option String := none
deriving DecidableEq, Repr

/-- The optional `data` patch of `updateDeploymentStatus`. -/
structure StatusPatch where
  provider : Option String := none
  deploymentUrl : Option String := none
  errorMessage : Option String := none
deriving DecidableEq, Repr

/-- Field override as by the JavaScript object spread: a field present in
the patch replaces the stored one. -/
def patchField (new old : Option α) : Option α :=
  match new with
  | some v => some v
  | none => old

/-- `DeploymentService.updateDeploymentStatus` (part_007 lines 179-202):
unconditionally writes the requested status and patch, refreshes
`updatedAt`, sets `startedAt := now` whenever the new status is
"building", and `completedAt := now` whenever it is terminal. No
transition is ever rejected. -/
def updateDeploymentStatus (row : DeploymentRow) (now : Nat) (status : String)
    (patch : StatusPatch) : DeploymentRow :=
  let r : DeploymentRow :=
    { row with
      status := status
      updatedAt := now
      provider := patchField patch.provider row.provider
      deploymentUrl := patchField patch.deploymentUrl row.deploymentUrl
      errorMessage := patchField patch.errorMessage row.errorMessage }
  if status = "building" then { r with startedAt := some now }
  else if status = "success" || status = "failed" || status = "cancelled" then
    { r with completedAt := some now }
  else r

/-- Sequential application of a list of `updateDeploymentStatus` calls. -/
def applyUpdates (row : DeploymentRow) : List (Nat × String × StatusPatch) → DeploymentRow
  | [] => row
  | (now, st, p) :: rest => applyUpdates (updateDeploymentStatus row now st p) rest

/-- Spec-side transition rule (sections 3 and 4.7): forward along the
chain queued, cloning, building, deploying, success, or from any
non-terminal state to failed or cancelled. -/
def stageIndex : String → Option Nat
  | "queued" => some 0
  | "cloning" => some 1
  | "building" => some 2
  | "deploying" => some 3
  | "success" => some 4
  | _ => none

/-- Spec-side: whether a transition is allowed by the state machine of
spec section 3. -/
def specAllowedTransition (fromSt toSt : String) : Bool :=
  match stageIndex fromSt, stageIndex toSt with
  | some i, some j => i < j
  | some i, none =>
      i ≤ 3 && (toSt = "failed" || toSt = "cancelled")
  | none, _ => false

/-- A deployment row already marked failed. -/
def failedRow : DeploymentRow := { status := "failed", updatedAt := 0 }

/-- The empty patch (no fields supplied). -/
def noPatch : StatusPatch := {}

/-! ## C5: ContainerService.cloneRepository fallback protocol -/

/-- Filesystem and git actions performed by `cloneRepository`. -/
inductive CloneAct
  | mkdirBase
  | mkdirWs
  | wipe
  | tryClone (branch : Option String)
deriving DecidableEq, Repr

/-- The fallback branch list (container.service.ts lines 103-104): the
four common branches, except that "main" is dropped when the requested
branch was exactly "main". A requested "master", "develop" or "dev" is
NOT dropped and is attempted a second time. -/
def branchesToTry (branch : String) : List String :=
  if branch ≠ "main" then ["main", "master", "develop", "dev"]
  else ["master", "develop", "dev"]

/-- The full order of clone attempts the code can make: requested branch,
fallback branches, then a final clone without a branch argument. -/
def cloneAttemptPlan (branch : String) : List (Option String) :=
  some branch :: (branchesToTry branch).map some ++ [none]

/-- Modelled from the spec (section 4.5 clone protocol): retry in order
main, master, develop, dev, skipping the branch already tried, then a
final clone without a branch. -/
def specCloneAttemptPlan (branch : String) : List (Option String) :=
  some branch ::
    ((["main", "master", "develop", "dev"].filter (· ≠ branch)).map some) ++ [none]

/-- The fallback loop of `cloneRepository` (lines 106-121): for each
branch, recreate the workspace and attempt a shallow clone; on failure
wipe the workspace and continue. Returns the performed actions and
whether some attempt succeeded. -/
def cloneFallbackLoop (succeeds : Option String → Bool) :
    List String → List CloneAct × Bool
  | [] => ([], false)
  | b :: bs =>
    if succeeds (some b) then ([.mkdirWs, .tryClone (some b)], true)
    else
      let rest := cloneFallbackLoop succeeds bs
      (.mkdirWs :: .tryClone (some b) :: .wipe :: rest.1, rest.2)

/-- `ContainerService.cloneRepository` (lines 65-145), as a function of
an oracle `succeeds` telling which clone invocations succeed and `errMsg`
giving the git error message of a failing invocation: returns the action
trace and either success or the raised error message. The final failure
message nests the inner "Unable to clone repository" error (carrying the
original and final git errors) inside the outer catch wrapper. -/
def cloneRepositoryRun (succeeds : Option String → Bool)
    (errMsg : Option String → String) (branch : String) :
    List CloneAct × Except String Unit :=
  if succeeds (some branch) then
    ([.mkdirBase, .mkdirWs, .tryClone (some branch)], .ok ())
  else
    let pre : List CloneAct := [.mkdirBase, .mkdirWs, .tryClone (some branch), .wipe]
    let loop := cloneFallbackLoop succeeds (branchesToTry branch)
    if loop.2 then (pre ++ loop.1, .ok ())
    else if succeeds none then
      (pre ++ loop.1 ++ [.mkdirWs, .tryClone none], .ok ())
    else
      (pre ++ loop.1 ++ [.mkdirWs, .tryClone none, .wipe],
       .error ("Failed to clone repository: Unable to clone repository. Original error: "
         ++ errMsg (some branch) ++ ", Final error: " ++ errMsg none))

/-- The clone attempts of a trace, in order. -/
def attemptsOf (acts : List CloneAct) : List (Option String) :=
  acts.filterMap fun a =>
    match a with
    | .tryClone b => some b
    | _ => none

/-- A plan truncated at (and including) its first succeeding entry. -/
def takeThroughSuccess (succeeds : Option String → Bool) :
    List (Option String) → List (Option String)
  | [] => []
  | b :: bs => if succeeds b then [b] else b :: takeThroughSuccess succeeds bs

/-- Trace scanner: in state `true` a clone attempt has been made and a
further clone attempt is not allowed until a wipe occurs. -/
def cloneScan : Bool → List CloneAct → Bool
  | _, [] => true
  | false, .tryClone _ :: rest => cloneScan true rest
  | false, _ :: rest => cloneScan false rest
  | true, .wipe :: rest => cloneScan false rest
  | true, .tryClone _ :: _ => false
  | true, _ :: rest => cloneScan true rest

/-- Every clone attempt that is followed by another clone attempt has a
workspace wipe in between. -/
def wipedBetweenClones (acts : List CloneAct) : Bool := cloneScan false acts

/-! ## C6: LoggingService.addLog durability and notification -/

/-- The state touched by one deployment's log bus: the in-memory list,
the durable log file, and the sequence of events subscribers observed. -/
structure BusState (α : Type) where
  memory : List α
  file : List α
  delivered : List α
deriving DecidableEq, Repr

/-- The three effects of `LoggingService.addLog`. -/
inductive BusOp
  | pushMemory
  | persist
  | notify
deriving DecidableEq, Repr

/-- The operation order of the body of `LoggingService.addLog`
(logging.service.ts lines 46-58): store in memory, persist to the log
file, then notify subscribers. -/
def addLogScript : List BusOp := [.pushMemory, .persist, .notify]

/-- Effect of one addLog operation. `persistLog` (lines 199-220) catches
any write failure itself, so a failing durable write leaves the file
unchanged but does not abort the append. -/
def runBusOp (writeFails : Bool) (e : α) : BusOp → BusState α → BusState α
  | .pushMemory, s => { s with memory := s.memory ++ [e] }
  | .persist, s => if writeFails then s else { s with file := s.file ++ [e] }
  | .notify, s => { s with delivered := s.delivered ++ [e] }

/-- `LoggingService.addLog` for one deployment and one subscriber. -/
def addLog (writeFails : Bool) (s : BusState α) (e : α) : BusState α :=
  addLogScript.foldl (fun st op => runBusOp writeFails e op st) s

/-- An empty log bus over numbered events. -/
def emptyBus : BusState Nat := { memory := [], file := [], delivered := [] }

/-! ## C7: LogsController.streamLogs replay-then-follow -/

/-- Event-loop events affecting one SSE subscription: a live append by
the worker, or the resolution of the asynchronous `getLogs` replay. -/
inductive StreamEv (α : Type)
  | append (e : α)
  | replayResolve
deriving DecidableEq, Repr

/-- State of one subscription: the service memory log, whether the replay
continuation has run, and what the subscriber has received. -/
structure StreamState (α : Type) where
  memory : List α
  replayDone : Bool
  delivered : List α
deriving DecidableEq, Repr

/-- One event-loop step of `LogsController.streamLogs` (lines 17-57).
The subscriber callback is registered synchronously when the stream
starts, while the replay of existing logs is the continuation of the
asynchronous `getLogs` call; a live append pushes to the service memory
and is delivered to the subscriber immediately, and when the replay
resolves it delivers the memory list as it stands at that moment (the
array is shared by reference). -/
def streamStep (s : StreamState α) : StreamEv α → StreamState α
  | .append e => { s with memory := s.memory ++ [e], delivered := s.delivered ++ [e] }
  | .replayResolve =>
      if s.replayDone then s
      else { s with replayDone := true, delivered := s.delivered ++ s.memory }

/-- Run one subscription: `existing` is the log content at subscription
time, `evs` the subsequent event-loop events. -/
def streamRun (existing : List α) (evs : List (StreamEv α)) : StreamState α :=
  evs.foldl streamStep { memory := existing, replayDone := false, delivered := [] }

/-- The new events appended during the subscription, in order. -/
def appendsIn (evs : List (StreamEv α)) : List α :=
  evs.filterMap fun ev =>
    match ev with
    | .append e => some e
    | .replayResolve => none

/-- The append order of the deployment's log: existing events followed by
the new appends. -/
def appendOrder (existing : List α) (evs : List (StreamEv α)) : List α :=
  existing ++ appendsIn evs

/-! ## C8: ContainerService.buildWithLanguageContainer cleanup -/

/-- Container-daemon requests made by the language-container build. -/
inductive ContainerOp
  | pullImage
  | createContainer
  | startContainer
  | waitContainer
  | removeContainer
deriving DecidableEq, Repr

/-- Result of a containerized build run: the daemon requests performed
and whether the build succeeded. -/
structure BuildRun where
  trace : List ContainerOp
  success : Bool
deriving DecidableEq, Repr

/-- `ContainerService.buildWithLanguageContainer` (lines 226-302) as a
function of whether the image pull succeeds and of the exit status of the
build container: pull, create, start, wait; a non-zero exit throws
"Build failed with exit code _", which the surrounding catch turns into a
failure result WITHOUT reaching the `container.remove()` call, which sits
after the artifact step on the success path only. -/
def buildWithLanguageContainer (pullOk : Bool) (exitCode : Nat) : BuildRun :=
  if pullOk then
    if exitCode = 0 then
      { trace := [.pullImage, .createContainer, .startContainer, .waitContainer,
                  .removeContainer],
        success := true }
    else
      { trace := [.pullImage, .createContainer, .startContainer, .waitContainer],
        success := false }
  else
    { trace := [.pullImage], success := false }


/-! ## C4 and C9: the credential vault cipher
`CredentialService.encrypt` and `decrypt` (credential.service.ts lines
366-389) use aes-256-cbc (although the service declares
`algorithm = 'aes-256-gcm'`, line 20, that field is never used) with a
key derived by scryptSync from the master key and the fixed salt "salt",
and a fresh random 16-byte IV per call; the output is
"<hex iv>:<hex ciphertext>". The AES-256 block permutation under the
derived key and its inverse are abstracted as parameters E and D; the
plaintext is the utf8 byte sequence of the credential JSON. -/

/-- Lowercase hexadecimal digit, as Node Buffer hex output. -/
def hexDigit (n : Nat) : Char :=
  if n < 10 then Char.ofNat (48 + n) else Char.ofNat (87 + n)

/-- The two hex characters of one byte. -/
def byteHex (b : Nat) : List Char := [hexDigit (b / 16), hexDigit (b % 16)]

/-- Hex string of a byte sequence. -/
def bytesToHex (bs : List Nat) : String := String.mk (List.flatten (bs.map byteHex))

/-- Value of one hex character. -/
def hexVal (c : Char) : Option Nat :=
  if 48 ≤ c.toNat ∧ c.toNat ≤ 57 then some (c.toNat - 48)
  else if 97 ≤ c.toNat ∧ c.toNat ≤ 102 then some (c.toNat - 87)
  else none

/-- Bytes of a hex character sequence, as Buffer.from with hex. -/
def hexToBytes : List Char → Option (List Nat)
  | [] => some []
  | [_] => none
  | c1 :: c2 :: rest => do
      let hi ← hexVal c1
      let lo ← hexVal c2
      let bs ← hexToBytes rest
      pure ((16 * hi + lo) :: bs)

/-- Bytewise xor of two equal-length blocks. -/
def xorBytes (a b : List Nat) : List Nat := List.zipWith (fun x y => x ^^^ y) a b

/-- A 16-byte block of byte values. -/
def Block16 (b : List Nat) : Prop := b.length = 16 ∧ ∀ x ∈ b, x < 256

/-- PKCS#7 padding to the 16-byte block size, as the OpenSSL EVP cipher
behind Node createCipheriv in CBC mode. -/
def pkcs7pad (bs : List Nat) : List Nat :=
  bs ++ List.replicate (16 - bs.length % 16) (16 - bs.length % 16)

/-- PKCS#7 unpadding; fails on invalid padding. -/
def pkcs7unpad (bs : List Nat) : Option (List Nat) :=
  match bs.reverse.head? with
  | none => none
  | some n =>
    if n = 0 ∨ 16 < n ∨ bs.length < n then none
    else if (bs.drop (bs.length - n)).all (· == n) then
      some (bs.take (bs.length - n))
    else none

/-- Split a byte sequence into 16-byte blocks; the fuel argument (always
called with the length of the sequence) keeps the recursion structural. -/
def chunks16Fuel : Nat → List Nat → List (List Nat)
  | 0, _ => []
  | fuel + 1, bs =>
    if bs = [] then [] else bs.take 16 :: chunks16Fuel fuel (bs.drop 16)

/-- Split a byte sequence into 16-byte blocks. -/
def chunks16 (bs : List Nat) : List (List Nat) := chunks16Fuel bs.length bs

/-- CBC-mode encryption over the block permutation E, chaining from the
previous ciphertext block. -/
def cbcEncryptBlocks (E : List Nat → List Nat) (prev : List Nat) :
    List (List Nat) → List (List Nat)
  | [] => []
  | b :: bs =>
    let c := E (xorBytes prev b)
    c :: cbcEncryptBlocks E c bs

/-- CBC-mode decryption over the inverse permutation D. -/
def cbcDecryptBlocks (D : List Nat → List Nat) (prev : List Nat) :
    List (List Nat) → List (List Nat)
  | [] => []
  | c :: cs => xorBytes prev (D c) :: cbcDecryptBlocks D c cs

/-- `CredentialService.encrypt`: aes-256-cbc under a fresh 16-byte IV,
output "<hex iv>:<hex ciphertext>". -/
def vaultEncrypt (E : List Nat → List Nat) (iv : List Nat)
    (plaintext : List Nat) : String :=
  bytesToHex iv ++ ":" ++
    bytesToHex (List.flatten (cbcEncryptBlocks E iv (chunks16 (pkcs7pad plaintext))))

/-- Split a character sequence at the first colon, as taking parts 0 and
1 of the JavaScript split at colons (the hex parts contain no colon). -/
def splitAtColon : List Char → Option (List Char × List Char)
  | [] => none
  | c :: rest =>
    if c = ':' then some ([], rest)
    else
      match splitAtColon rest with
      | none => none
      | some (pre, post) => some (c :: pre, post)

/-- `CredentialService.decrypt`: parse "<hex iv>:<hex ciphertext>", CBC
decrypt, and strip the padding. -/
def vaultDecrypt (D : List Nat → List Nat) (s : String) : Option (List Nat) :=
  match splitAtColon s.data with
  | none => none
  | some (ivHex, ctHex) =>
    match hexToBytes ivHex, hexToBytes ctHex with
    | some iv, some ct =>
        pkcs7unpad (List.flatten (cbcDecryptBlocks D iv (chunks16 ct)))
    | _, _ => none


/-- A 17-byte credential plaintext (two CBC blocks after padding). -/
def tamperPT : List Nat := List.replicate 17 65

/-- A concrete 16-byte IV. -/
def tamperIV : List Nat :=
  [0, 1, 2, 3, 4, 5, 6, 7, 8, 9, 10, 11, 12, 13, 14, 15]

/-- The same IV with its first byte changed from 0x00 to 0xff. -/
def tamperIV2 : List Nat :=
  [255, 1, 2, 3, 4, 5, 6, 7, 8, 9, 10, 11, 12, 13, 14, 15]

/-- The stored ciphertext of tamperPT under tamperIV, with the first byte
of the embedded nonce flipped to 0xff by an attacker; the ciphertext body
is untouched. -/
def tamperedCiphertext : String :=
  bytesToHex tamperIV2 ++ ":" ++
    bytesToHex (List.flatten (cbcEncryptBlocks id tamperIV
      (chunks16 (pkcs7pad tamperPT))))

/-- What CBC decryption returns for the tampered ciphertext: the first
plaintext byte is altered (65 xor 255 = 190), the rest unchanged. -/
def tamperResult : List Nat := 190 :: List.replicate 16 65

/-! ## C10: CredentialService.getFirstCredentialForProvider -/

/-- A row of the user_credentials table. -/
structure CredentialRow where
  id : String
  userId : String
  provider : String
  isActive : Bool
  createdAt : Nat
  encryptedCredentials : String
deriving DecidableEq, Repr

/-- First row of a result set ordered by createdAt descending: an element
with the greatest createdAt. -/
def pickLatest : List CredentialRow → Option CredentialRow
  | [] => none
  | c :: cs =>
    match pickLatest cs with
    | none => some c
    | some d => if d.createdAt ≤ c.createdAt then some c else some d

/-- The TypeORM query of `getFirstCredentialForProvider`: findOne with
where { provider, isActive: true } and order createdAt DESC. There is no
userId condition: credentials of all owners are searched. -/
def findLatestActive (db : List CredentialRow) (provider : String) :
    Option CredentialRow :=
  pickLatest (db.filter fun c => c.provider == provider && c.isActive)

/-- `CredentialService.getFirstCredentialForProvider` (lines 257-284):
looks up the newest active credential for the provider across all owners
and decrypts it; any error, including a decryption failure, is caught and
turned into `none` rather than raised. Returns (id, provider,
credentials, isActive). -/
def getFirstCredentialForProvider (db : List CredentialRow)
    (decryptFn : String → Option String) (provider : String) :
    Option (String × String × String × Bool) :=
  match findLatestActive db provider with
  | none => none
  | some c =>
    match decryptFn c.encryptedCredentials with
    | none => none
    | some creds => some (c.id, c.provider, creds, c.isActive)

/-- A concrete credential table with two owners. -/
def sampleCredDb : List CredentialRow :=
  [{ id := "a", userId := "u1", provider := "netlify", isActive := true,
     createdAt := 5, encryptedCredentials := "ea" },
   { id := "b", userId := "u2", provider := "netlify", isActive := true,
     createdAt := 9, encryptedCredentials := "eb" },
   { id := "c", userId := "u1", provider := "vercel", isActive := true,
     createdAt := 99, encryptedCredentials := "ec" }]

/-- A concrete decryption oracle for `sampleCredDb`. -/
def sampleDecrypt (s : String) : Option String :=
  if s = "ea" then some "tok-a" else if s = "eb" then some "tok-b" else none

end Deployify

open Deployify

/-- C1: the claim says BuildError and MissingCredential are terminal and
do not request a queue retry, but the worker re-raises (requesting a
retry) any error whose message does not contain "timeout" while fewer
than MAX_RETRIES attempts were made: on the first attempt both a build
failure and a missing credential ARE retried. -/
theorem C1_counterexample :
    processCatchOutcome 0 (errMessage .buildError) = .retryRequested ∧
    processCatchOutcome 0 (errMessage .missingCredential) = .retryRequested ∧
    specRequestsRetry .buildError = false ∧
    specRequestsRetry .missingCredential = false := by
  refine ⟨?_, ?_, rfl, rfl⟩ <;> decide

/-- C1 (amended): the worker requests a queue retry exactly when fewer
than MAX_RETRIES (= 2) attempts were made and the error message does not
contain the substring "timeout"; in every other case (timeout errors, or
retries exhausted) the deployment is marked failed and the job is not
re-enqueued. -/
theorem C1_retry_rule (attemptsMade : Nat) (errMsg : String) :
    processCatchOutcome attemptsMade errMsg = .retryRequested ↔
      (attemptsMade < MAX_RETRIES ∧ strContains errMsg "timeout" = false) := by
  unfold processCatchOutcome
  split
  next h =>
    simp only [Bool.and_eq_true, decide_eq_true_eq, Bool.not_eq_true'] at h
    exact iff_of_true rfl h
  next h =>
    simp only [Bool.and_eq_true, decide_eq_true_eq, Bool.not_eq_true'] at h
    exact iff_of_false (by decide) h

/-- C2: the claim says updateDeploymentStatus rejects transitions that
violate the state-machine order (in particular that a failed deployment
is never moved back to cloning), but the code applies the requested
transition unconditionally: updating a failed deployment to "cloning"
succeeds, although the spec state machine forbids that transition. -/
theorem C2_counterexample :
    (updateDeploymentStatus failedRow 1 "cloning" noPatch).status = "cloning" ∧
    specAllowedTransition "failed" "cloning" = false := by
  exact ⟨rfl, rfl⟩

/-- Helper: updateDeploymentStatus always stores the requested status. -/
theorem updateDeploymentStatus_status (row : DeploymentRow) (now : Nat)
    (st : String) (p : StatusPatch) :
    (updateDeploymentStatus row now st p).status = st := by
  unfold updateDeploymentStatus
  split
  · rfl
  · split <;> rfl

/-- Helper: applyUpdates over a snoc list. -/
theorem applyUpdates_append (row : DeploymentRow)
    (l : List (Nat × String × StatusPatch)) (x : Nat × String × StatusPatch) :
    applyUpdates row (l ++ [x]) =
      updateDeploymentStatus (applyUpdates row l) x.1 x.2.1 x.2.2 := by
  induction l generalizing row with
  | nil => obtain ⟨now, st, p⟩ := x; rfl
  | cons y ys ih =>
    obtain ⟨n, s, q⟩ := y
    simpa [applyUpdates] using ih (updateDeploymentStatus row n s q)

/-- C2 (amended): `updateDeploymentStatus` never rejects a transition:
after any sequence of calls the stored status is the last requested one
(so the worker retry path does move a failed deployment back to cloning);
it sets `startedAt := now` on every entry to "building" and
`completedAt := now` on entry to any terminal status. -/
theorem C2_update_state (row : DeploymentRow)
    (reqs : List (Nat × String × StatusPatch)) (now : Nat) (st : String)
    (p : StatusPatch) :
    (applyUpdates row (reqs ++ [(now, st, p)])).status = st ∧
    (updateDeploymentStatus row now "building" p).startedAt = some now ∧
    ((st = "success" ∨ st = "failed" ∨ st = "cancelled") →
      (updateDeploymentStatus row now st p).completedAt = some now) := by
  refine ⟨?_, ?_, ?_⟩
  · rw [applyUpdates_append]
    exact updateDeploymentStatus_status _ _ _ _
  · rfl
  · rintro (h | h | h) <;> subst h <;> rfl

/-- C2 witness: a concrete instantiation of the amended theorem. -/
theorem C2_update_state_witness :
    (applyUpdates failedRow ([(1, "cloning", noPatch)] ++ [(2, "failed", noPatch)])).status
        = "failed" ∧
    (updateDeploymentStatus failedRow 3 "building" noPatch).startedAt = some 3 ∧
    (updateDeploymentStatus failedRow 4 "failed" noPatch).completedAt = some 4 := by
  refine ⟨(C2_update_state failedRow [(1, "cloning", noPatch)] 2 "failed" noPatch).1,
    (C2_update_state failedRow [] 3 "building" noPatch).2.1,
    (C2_update_state failedRow [] 4 "failed" noPatch).2.2 (Or.inr (Or.inl rfl))⟩

/-- C3: the claim states the five-step decision order (explicit provider
if registered, else first REGISTERED preferred entry, else the smart
defaults), but the code only consults the FIRST preferred entry (falling
through to the defaults when that entry is unregistered, never reaching
"netlify" in second position) and uses an explicit provider without any
registration check. -/
theorem C3_counterexample :
    (workerSelectProvider none spaAnalysis ["aws-amplify", "netlify"] = "vercel" ∧
     specSelectProvider none ["aws-amplify", "netlify"] spaAnalysis = "netlify") ∧
    (workerSelectProvider (some "local") spaAnalysis [] = "local" ∧
     specSelectProvider (some "local") [] spaAnalysis = "vercel") := by
  exact ⟨⟨rfl, rfl⟩, ⟨rfl, rfl⟩⟩

/-- C3 (amended): provider selection is the total deterministic function
given by: the explicit provider verbatim when present (no registration
check); else the first entry of preferred_providers when it is literally
netlify or vercel (later entries are never consulted); else Vercel for
Next.js, Netlify for pure-static or type static, and Vercel otherwise. -/
theorem C3_selection :
    (∀ (p : String) (a : ProjectAnalysis) (pre : List String),
        workerSelectProvider (some p) a pre = p) ∧
    (∀ (a : ProjectAnalysis) (p : String) (rest rest' : List String),
        workerSelectProvider none a (p :: rest) =
          workerSelectProvider none a (p :: rest')) ∧
    (∀ (a : ProjectAnalysis) (p : String) (rest : List String),
        (p = "netlify" ∨ p = "vercel") →
        workerSelectProvider none a (p :: rest) = p) ∧
    (∀ (a : ProjectAnalysis) (p : String) (rest : List String),
        p ≠ "netlify" → p ≠ "vercel" →
        workerSelectProvider none a (p :: rest) = selectProviderDefault a) ∧
    (∀ a : ProjectAnalysis, workerSelectProvider none a [] = selectProviderDefault a) ∧
    (∀ a : ProjectAnalysis, (a.framework = "next" ∨ a.type = "next") →
        selectProviderDefault a = "vercel") ∧
    (∀ a : ProjectAnalysis, a.framework ≠ "next" → a.type ≠ "next" →
        (a.isStaticHtml = true ∨ a.type = "static") →
        selectProviderDefault a = "netlify") ∧
    (∀ a : ProjectAnalysis, a.framework ≠ "next" → a.type ≠ "next" →
        a.isStaticHtml = false → a.type ≠ "static" →
        selectProviderDefault a = "vercel") := by
  refine ⟨fun p a pre => rfl, ?_, ?_, ?_, fun a => rfl, ?_, ?_, ?_⟩
  · intro a p rest rest'
    simp only [workerSelectProvider, selectProvider]
  · rintro a p rest (h | h) <;> subst h <;> rfl
  · intro a p rest h1 h2
    simp only [workerSelectProvider, selectProvider]
    rw [if_neg]
    simp [h1, h2]
  · rintro a (h | h) <;>
      simp [selectProviderDefault, h]
  · intro a h1 h2 h3
    rcases h3 with h3 | h3 <;>
      simp [selectProviderDefault, h1, h2, h3]
  · intro a h1 h2 h3 h4
    simp [selectProviderDefault, h1, h2, h3, h4]

/-- C3 witness: concrete instantiations of the amended selection rule. -/
theorem C3_selection_witness :
    workerSelectProvider none spaAnalysis ["netlify", "vercel"] = "netlify" ∧
    selectProviderDefault spaAnalysis = "vercel" := by
  refine ⟨C3_selection.2.2.1 spaAnalysis "netlify" ["vercel"] (Or.inl rfl),
    C3_selection.2.2.2.2.2.2.2 spaAnalysis (by decide) (by decide) rfl (by decide)⟩

/-- C5: the claim says the fallback skips the branch already tried, but
the code only drops "main" from the fallback list: for a requested branch
"master" the code plan attempts "master" twice while the spec plan
attempts it once, and with every clone failing the executed attempts
follow the code plan, not the spec plan. -/
theorem C5_counterexample :
    cloneAttemptPlan "master" ≠ specCloneAttemptPlan "master" ∧
    (cloneAttemptPlan "master").count (some "master") = 2 ∧
    (specCloneAttemptPlan "master").count (some "master") = 1 ∧
    attemptsOf (cloneRepositoryRun (fun _ => false)
        (fun _ => "fatal: could not read from remote repository") "master").1 =
      cloneAttemptPlan "master" := by
  refine ⟨by decide, by decide, by decide, by decide⟩

/-- Helper: the wipe scanner over the fallback loop trace. -/
theorem cloneScan_fallbackLoop (succeeds : Option String → Bool) :
    ∀ (bs : List String) (tail : List CloneAct),
      cloneScan false ((cloneFallbackLoop succeeds bs).1 ++ tail) =
        if (cloneFallbackLoop succeeds bs).2 then cloneScan true tail
        else cloneScan false tail := by
  intro bs
  induction bs with
  | nil => intro tail; simp [cloneFallbackLoop]
  | cons b bs ih =>
    intro tail
    cases hb : succeeds (some b) with
    | true =>
      simp only [cloneFallbackLoop, hb, if_true]
      rfl
    | false =>
      simp only [cloneFallbackLoop, hb, Bool.false_eq_true, if_false]
      exact ih tail

/-- Helper: attempts and outcome of the fallback loop. -/
theorem cloneFallbackLoop_attempts (succeeds : Option String → Bool) :
    ∀ bs : List String,
      attemptsOf (cloneFallbackLoop succeeds bs).1 =
        takeThroughSuccess succeeds (bs.map some) ∧
      (cloneFallbackLoop succeeds bs).2 = (bs.map some).any succeeds := by
  intro bs
  induction bs with
  | nil => exact ⟨rfl, rfl⟩
  | cons b bs ih =>
    cases hb : succeeds (some b) with
    | true =>
      simp only [cloneFallbackLoop, hb, if_true]
      constructor
      · simp [attemptsOf, takeThroughSuccess, hb]
      · simp [hb]
    | false =>
      simp only [cloneFallbackLoop, hb, Bool.false_eq_true, if_false]
      constructor
      · simpa [attemptsOf, takeThroughSuccess, hb] using ih.1
      · simpa [hb] using ih.2

/-- Helper: truncation distributes over an all-failing prefix. -/
theorem takeThroughSuccess_append_none (succeeds : Option String → Bool) :
    ∀ l1 l2 : List (Option String), l1.any succeeds = false →
      takeThroughSuccess succeeds (l1 ++ l2) =
        l1 ++ takeThroughSuccess succeeds l2 := by
  intro l1
  induction l1 with
  | nil => intro l2 _; rfl
  | cons x xs ih =>
    intro l2 h
    simp only [List.any_cons, Bool.or_eq_false_iff] at h
    simp [takeThroughSuccess, h.1, ih l2 h.2]

/-- Helper: truncation ignores the suffix once a success occurs. -/
theorem takeThroughSuccess_append_some (succeeds : Option String → Bool) :
    ∀ l1 l2 : List (Option String), l1.any succeeds = true →
      takeThroughSuccess succeeds (l1 ++ l2) = takeThroughSuccess succeeds l1 := by
  intro l1
  induction l1 with
  | nil => intro l2 h; simp at h
  | cons x xs ih =>
    intro l2 h
    cases hx : succeeds x with
    | true => simp [takeThroughSuccess, hx]
    | false =>
      simp only [List.any_cons, hx, Bool.false_or] at h
      simp [takeThroughSuccess, hx, ih l2 h]

/-- Helper: the fallback loop trace scanner when the loop succeeded. -/
theorem cloneScan_fallbackLoop_ok (succeeds : Option String → Bool)
    (bs : List String) (h : (cloneFallbackLoop succeeds bs).2 = true)
    (tail : List CloneAct) :
    cloneScan false ((cloneFallbackLoop succeeds bs).1 ++ tail) =
      cloneScan true tail := by
  rw [cloneScan_fallbackLoop succeeds bs tail, h, if_pos rfl]

/-- Helper: the fallback loop trace scanner when the loop failed. -/
theorem cloneScan_fallbackLoop_fail (succeeds : Option String → Bool)
    (bs : List String) (h : (cloneFallbackLoop succeeds bs).2 = false)
    (tail : List CloneAct) :
    cloneScan false ((cloneFallbackLoop succeeds bs).1 ++ tail) =
      cloneScan false tail := by
  rw [cloneScan_fallbackLoop succeeds bs tail, h]
  simp

/-- Helper: truncation of an all-failing plan is the plan itself. -/
theorem takeThroughSuccess_all_fail (succeeds : Option String → Bool) :
    ∀ l : List (Option String), l.any succeeds = false →
      takeThroughSuccess succeeds l = l := by
  intro l
  induction l with
  | nil => intro _; rfl
  | cons x xs ih =>
    intro h
    simp only [List.any_cons, Bool.or_eq_false_iff] at h
    simp [takeThroughSuccess, h.1, ih h.2]

/-- Helper: attempts extraction commutes with the trace constructors. -/
theorem attemptsOf_cons_mkdirBase (l : List CloneAct) :
    attemptsOf (CloneAct.mkdirBase :: l) = attemptsOf l := rfl

/-- Helper: mkdirWs contributes no attempt. -/
theorem attemptsOf_cons_mkdirWs (l : List CloneAct) :
    attemptsOf (CloneAct.mkdirWs :: l) = attemptsOf l := rfl

/-- Helper: wipe contributes no attempt. -/
theorem attemptsOf_cons_wipe (l : List CloneAct) :
    attemptsOf (CloneAct.wipe :: l) = attemptsOf l := rfl

/-- Helper: a clone action contributes its branch. -/
theorem attemptsOf_cons_try (b : Option String) (l : List CloneAct) :
    attemptsOf (CloneAct.tryClone b :: l) = b :: attemptsOf l := rfl

/-- Helper: attempts extraction distributes over append. -/
theorem attemptsOf_append (l1 l2 : List CloneAct) :
    attemptsOf (l1 ++ l2) = attemptsOf l1 ++ attemptsOf l2 :=
  List.filterMap_append l1 l2 _

/-- Helper: the executed clone attempts are the code plan truncated at
its first succeeding entry. -/
theorem cloneRepositoryRun_attempts (succeeds : Option String → Bool)
    (errMsg : Option String → String) (branch : String) :
    attemptsOf (cloneRepositoryRun succeeds errMsg branch).1 =
      takeThroughSuccess succeeds (cloneAttemptPlan branch) := by
  have hloop := cloneFallbackLoop_attempts succeeds (branchesToTry branch)
  have ht : takeThroughSuccess succeeds [none] = [none] := by
    cases hn : succeeds none <;> simp [takeThroughSuccess, hn]
  cases hb : succeeds (some branch) with
  | true =>
    have htr : (cloneRepositoryRun succeeds errMsg branch).1 =
        [CloneAct.mkdirBase, CloneAct.mkdirWs, CloneAct.tryClone (some branch)] := by
      simp [cloneRepositoryRun, hb]
    rw [htr, cloneAttemptPlan]
    simp [attemptsOf_cons_mkdirBase, attemptsOf_cons_mkdirWs, attemptsOf_cons_try,
      takeThroughSuccess, hb, attemptsOf]
  | false =>
    have hplan : takeThroughSuccess succeeds (cloneAttemptPlan branch) =
        some branch ::
          takeThroughSuccess succeeds ((branchesToTry branch).map some ++ [none]) := by
      simp [cloneAttemptPlan, takeThroughSuccess, hb]
    cases hL : (cloneFallbackLoop succeeds (branchesToTry branch)).2 with
    | true =>
      have hanyB : ((branchesToTry branch).map some).any succeeds = true :=
        hloop.2.symm.trans hL
      have htr : (cloneRepositoryRun succeeds errMsg branch).1 =
          CloneAct.mkdirBase :: CloneAct.mkdirWs :: CloneAct.tryClone (some branch) ::
            CloneAct.wipe :: (cloneFallbackLoop succeeds (branchesToTry branch)).1 := by
        simp [cloneRepositoryRun, hb, hL]
      rw [htr, hplan, takeThroughSuccess_append_some succeeds _ _ hanyB,
        attemptsOf_cons_mkdirBase, attemptsOf_cons_mkdirWs, attemptsOf_cons_try,
        attemptsOf_cons_wipe, hloop.1]
    | false =>
      have hanyB : ((branchesToTry branch).map some).any succeeds = false :=
        hloop.2.symm.trans hL
      have hTb : attemptsOf (cloneFallbackLoop succeeds (branchesToTry branch)).1 =
          (branchesToTry branch).map some :=
        hloop.1.trans (takeThroughSuccess_all_fail succeeds _ hanyB)
      have hrest : takeThroughSuccess succeeds
            ((branchesToTry branch).map some ++ [none]) =
          (branchesToTry branch).map some ++ [none] := by
        rw [takeThroughSuccess_append_none succeeds _ _ hanyB, ht]
      cases hn : succeeds none with
      | true =>
        have htr : (cloneRepositoryRun succeeds errMsg branch).1 =
            (CloneAct.mkdirBase :: CloneAct.mkdirWs :: CloneAct.tryClone (some branch) ::
              CloneAct.wipe :: (cloneFallbackLoop succeeds (branchesToTry branch)).1) ++
              [CloneAct.mkdirWs, CloneAct.tryClone none] := by
          simp [cloneRepositoryRun, hb, hL, hn]
        rw [htr, hplan, hrest, attemptsOf_append, attemptsOf_cons_mkdirBase,
          attemptsOf_cons_mkdirWs, attemptsOf_cons_try, attemptsOf_cons_wipe, hTb]
        rfl
      | false =>
        have htr : (cloneRepositoryRun succeeds errMsg branch).1 =
            (CloneAct.mkdirBase :: CloneAct.mkdirWs :: CloneAct.tryClone (some branch) ::
              CloneAct.wipe :: (cloneFallbackLoop succeeds (branchesToTry branch)).1) ++
              [CloneAct.mkdirWs, CloneAct.tryClone none, CloneAct.wipe] := by
          simp [cloneRepositoryRun, hb, hL, hn]
        rw [htr, hplan, hrest, attemptsOf_append, attemptsOf_cons_mkdirBase,
          attemptsOf_cons_mkdirWs, attemptsOf_cons_try, attemptsOf_cons_wipe, hTb]
        rfl

/-- Helper: the run succeeds exactly when some attempt in the plan
succeeds. -/
theorem cloneRepositoryRun_ok (succeeds : Option String → Bool)
    (errMsg : Option String → String) (branch : String) :
    ((cloneRepositoryRun succeeds errMsg branch).2 = .ok () ↔
      (cloneAttemptPlan branch).any succeeds = true) := by
  have hloop := cloneFallbackLoop_attempts succeeds (branchesToTry branch)
  cases hb : succeeds (some branch) with
  | true => simp [cloneRepositoryRun, hb, cloneAttemptPlan]
  | false =>
    cases hL : (cloneFallbackLoop succeeds (branchesToTry branch)).2 with
    | true =>
      have hanyB : ((branchesToTry branch).map some).any succeeds = true :=
        hloop.2.symm.trans hL
      simp [cloneRepositoryRun, hb, hL, cloneAttemptPlan, List.any_append, hanyB]
    | false =>
      have hanyB : ((branchesToTry branch).map some).any succeeds = false :=
        hloop.2.symm.trans hL
      cases hn : succeeds none with
      | true =>
        simp [cloneRepositoryRun, hb, hL, hn, cloneAttemptPlan, List.any_append, hanyB]
      | false =>
        simp [cloneRepositoryRun, hb, hL, hn, cloneAttemptPlan, List.any_append, hanyB]

/-- Helper: on total failure the raised message nests both git errors. -/
theorem cloneRepositoryRun_error (succeeds : Option String → Bool)
    (errMsg : Option String → String) (branch : String)
    (hall : (cloneAttemptPlan branch).any succeeds = false) :
    (cloneRepositoryRun succeeds errMsg branch).2 =
      .error ("Failed to clone repository: Unable to clone repository. Original error: "
        ++ errMsg (some branch) ++ ", Final error: " ++ errMsg none) := by
  have hloop := cloneFallbackLoop_attempts succeeds (branchesToTry branch)
  have hb : succeeds (some branch) = false := by
    cases h : succeeds (some branch)
    · rfl
    · rw [cloneAttemptPlan] at hall
      simp [h] at hall
  have hanyB : ((branchesToTry branch).map some).any succeeds = false := by
    cases h : ((branchesToTry branch).map some).any succeeds
    · rfl
    · rw [cloneAttemptPlan] at hall
      simp [List.any_append, h] at hall
  have hn : succeeds none = false := by
    cases h : succeeds none
    · rfl
    · rw [cloneAttemptPlan] at hall
      simp [List.any_append, h] at hall
  have hL : (cloneFallbackLoop succeeds (branchesToTry branch)).2 = false :=
    hloop.2.trans hanyB
  simp [cloneRepositoryRun, hb, hL, hn]

/-- Helper: the workspace is wiped between any two clone attempts. -/
theorem cloneRepositoryRun_wipes (succeeds : Option String → Bool)
    (errMsg : Option String → String) (branch : String) :
    wipedBetweenClones (cloneRepositoryRun succeeds errMsg branch).1 = true := by
  cases hb : succeeds (some branch) with
  | true =>
    have htr : (cloneRepositoryRun succeeds errMsg branch).1 =
        [CloneAct.mkdirBase, CloneAct.mkdirWs, CloneAct.tryClone (some branch)] := by
      simp [cloneRepositoryRun, hb]
    rw [wipedBetweenClones, htr]
    rfl
  | false =>
    cases hL : (cloneFallbackLoop succeeds (branchesToTry branch)).2 with
    | true =>
      have htr : (cloneRepositoryRun succeeds errMsg branch).1 =
          CloneAct.mkdirBase :: CloneAct.mkdirWs :: CloneAct.tryClone (some branch) ::
            CloneAct.wipe :: (cloneFallbackLoop succeeds (branchesToTry branch)).1 := by
        simp [cloneRepositoryRun, hb, hL]
      rw [wipedBetweenClones, htr]
      show cloneScan false (cloneFallbackLoop succeeds (branchesToTry branch)).1 = true
      have key := cloneScan_fallbackLoop_ok succeeds (branchesToTry branch) hL []
      rw [List.append_nil] at key
      rw [key]
      rfl
    | false =>
      cases hn : succeeds none with
      | true =>
        have htr : (cloneRepositoryRun succeeds errMsg branch).1 =
            (CloneAct.mkdirBase :: CloneAct.mkdirWs :: CloneAct.tryClone (some branch) ::
              CloneAct.wipe :: (cloneFallbackLoop succeeds (branchesToTry branch)).1) ++
              [CloneAct.mkdirWs, CloneAct.tryClone none] := by
          simp [cloneRepositoryRun, hb, hL, hn]
        rw [wipedBetweenClones, htr]
        show cloneScan false ((cloneFallbackLoop succeeds (branchesToTry branch)).1 ++
          [CloneAct.mkdirWs, CloneAct.tryClone none]) = true
        rw [cloneScan_fallbackLoop_fail succeeds (branchesToTry branch) hL]
        rfl
      | false =>
        have htr : (cloneRepositoryRun succeeds errMsg branch).1 =
            (CloneAct.mkdirBase :: CloneAct.mkdirWs :: CloneAct.tryClone (some branch) ::
              CloneAct.wipe :: (cloneFallbackLoop succeeds (branchesToTry branch)).1) ++
              [CloneAct.mkdirWs, CloneAct.tryClone none, CloneAct.wipe] := by
          simp [cloneRepositoryRun, hb, hL, hn]
        rw [wipedBetweenClones, htr]
        show cloneScan false ((cloneFallbackLoop succeeds (branchesToTry branch)).1 ++
          [CloneAct.mkdirWs, CloneAct.tryClone none, CloneAct.wipe]) = true
        rw [cloneScan_fallbackLoop_fail succeeds (branchesToTry branch) hL]
        rfl

/-- C5 (amended): the clone attempts are exactly the code plan (requested
branch; then main, master, develop, dev, where only "main" is skipped
when it was the requested branch; then a branchless clone) truncated at
the first success; the run succeeds exactly when some attempt in the plan
succeeds; on total failure the raised message carries both the original
and the final git error; and the workspace is wiped between attempts. -/
theorem C5_clone_protocol (succeeds : Option String → Bool)
    (errMsg : Option String → String) (branch : String) :
    attemptsOf (cloneRepositoryRun succeeds errMsg branch).1 =
      takeThroughSuccess succeeds (cloneAttemptPlan branch) ∧
    ((cloneRepositoryRun succeeds errMsg branch).2 = .ok () ↔
      (cloneAttemptPlan branch).any succeeds = true) ∧
    ((cloneAttemptPlan branch).any succeeds = false →
      (cloneRepositoryRun succeeds errMsg branch).2 =
        .error ("Failed to clone repository: Unable to clone repository. Original error: "
          ++ errMsg (some branch) ++ ", Final error: " ++ errMsg none)) ∧
    wipedBetweenClones (cloneRepositoryRun succeeds errMsg branch).1 = true :=
  ⟨cloneRepositoryRun_attempts succeeds errMsg branch,
   cloneRepositoryRun_ok succeeds errMsg branch,
   cloneRepositoryRun_error succeeds errMsg branch,
   cloneRepositoryRun_wipes succeeds errMsg branch⟩

/-- C5 witness: a concrete run where the requested feature branch is
missing and "main" exists. -/
theorem C5_clone_protocol_witness :
    attemptsOf (cloneRepositoryRun (fun b => b == some "main") (fun _ => "e")
        "feature/x").1 =
      takeThroughSuccess (fun b => b == some "main")
        (cloneAttemptPlan "feature/x") ∧
    (cloneRepositoryRun (fun b => b == some "main") (fun _ => "e")
        "feature/x").2 = .ok () := by
  refine ⟨(C5_clone_protocol (fun b => b == some "main") (fun _ => "e") "feature/x").1,
    ((C5_clone_protocol (fun b => b == some "main") (fun _ => "e") "feature/x").2.1).mpr
      (by decide)⟩

/-- C6: the claim says that if the durable write fails the append fails
and no subscriber observes the event, but `persistLog` swallows the write
error: the append completes normally and the subscriber is notified of
the event even though the log file was not written. -/
theorem C6_counterexample :
    (addLog true emptyBus 0).delivered = [0] ∧
    (addLog true emptyBus 0).file = [] ∧
    (addLog true emptyBus 0).memory = [0] :=
  ⟨rfl, rfl, rfl⟩

/-- C6 (amended): within one append the durable write is attempted
strictly before subscribers are notified (persist precedes notify in the
body of addLog), and when the write succeeds the event is durable before
any notification; but a durable-write failure is swallowed inside
persistLog: the append still succeeds and subscribers are notified of an
event that was never persisted. -/
theorem C6_append_semantics (α : Type) (writeFails : Bool) (s : BusState α) (e : α) :
    (addLog writeFails s e).delivered = s.delivered ++ [e] ∧
    (addLog writeFails s e).memory = s.memory ++ [e] ∧
    (addLog false s e).file = s.file ++ [e] ∧
    (addLog true s e).file = s.file ∧
    BusOp.persist ∈ addLogScript.takeWhile (fun op => !(op == BusOp.notify)) := by
  cases writeFails <;> exact ⟨rfl, rfl, rfl, rfl, by decide⟩

/-- C7: the claim says every subscriber first receives the full existing
log and then the live appends, with no reordering or duplication; but the
subscriber callback is registered before the asynchronous replay
resolves, so an append arriving in that window is delivered live first
and then again inside the replayed batch: with existing log [1] and a
live append 2 before the replay resolves, the subscriber receives
[2, 1, 2], which is not a sublist of the append order [1, 2]. -/
theorem C7_counterexample :
    (streamRun [1] [StreamEv.append 2, StreamEv.replayResolve]).delivered
      = [2, 1, 2] ∧
    appendOrder [1] [StreamEv.append 2, StreamEv.replayResolve] = [1, 2] ∧
    ¬ List.Sublist
      (streamRun [1] [StreamEv.append 2, StreamEv.replayResolve]).delivered
      (appendOrder [1] [StreamEv.append 2, StreamEv.replayResolve]) := by
  refine ⟨rfl, rfl, by decide⟩

/-- Helper: after the replay has fired, the stream delivers exactly the
subsequent appends. -/
theorem streamRun_delivered_done {α : Type} :
    ∀ (evs : List (StreamEv α)) (s : StreamState α), s.replayDone = true →
      (evs.foldl streamStep s).delivered = s.delivered ++ appendsIn evs := by
  intro evs
  induction evs with
  | nil => intro s _; simp [appendsIn]
  | cons ev evs ih =>
    intro s h
    cases ev with
    | append e =>
      rw [List.foldl_cons, ih (streamStep s (.append e)) (by simp [streamStep, h])]
      simp [streamStep, appendsIn]
    | replayResolve =>
      have hstep : streamStep s .replayResolve = s := by simp [streamStep, h]
      rw [List.foldl_cons, hstep, ih s h]
      simp [appendsIn]

/-- C7 (amended): replay-then-follow holds exactly when the asynchronous
replay resolves before any live append is notified: in that case the
subscriber receives the existing log in order followed by the appends in
append order (an ordered subsequence — in fact the whole — of the append
order); an append delivered before the replay resolves is delivered ahead
of the replayed batch and repeated inside it. -/
theorem C7_replay_then_follow (α : Type) (existing : List α)
    (rest : List (StreamEv α)) :
    (streamRun existing (StreamEv.replayResolve :: rest)).delivered =
      appendOrder existing (StreamEv.replayResolve :: rest) := by
  have key := streamRun_delivered_done (α := α) rest
    ⟨existing, true, existing⟩ rfl
  have hstart : (streamRun existing (StreamEv.replayResolve :: rest)).delivered =
      (List.foldl streamStep (⟨existing, true, existing⟩ : StreamState α)
        rest).delivered := rfl
  rw [hstart, key]
  simp [appendOrder, appendsIn]

/-- C8: the build container is removed after a successful run, but on a
non-zero exit status the code throws before `container.remove()`: the
container is leaked on failure, contradicting the requirement that it be
removed on both success and failure. -/
theorem C8_container_removal :
    (buildWithLanguageContainer true 0).success = true ∧
    ContainerOp.removeContainer ∈ (buildWithLanguageContainer true 0).trace ∧
    (buildWithLanguageContainer true 1).success = false ∧
    ContainerOp.removeContainer ∉ (buildWithLanguageContainer true 1).trace := by
  refine ⟨rfl, by decide, rfl, by decide⟩

/-- Helper: a nonempty result set always yields a first row. -/
theorem pickLatest_ne_none (a : CredentialRow) (as : List CredentialRow) :
    pickLatest (a :: as) ≠ none := by
  cases hp : pickLatest as with
  | none => simp [pickLatest, hp]
  | some d =>
    simp only [pickLatest, hp]
    by_cases hle : d.createdAt ≤ a.createdAt
    · rw [if_pos hle]; exact fun h => by cases h
    · rw [if_neg hle]; exact fun h => by cases h

/-- Helper: the first row of the descending-order query is an element of
the result set. -/
theorem pickLatest_mem : ∀ (l : List CredentialRow) (c : CredentialRow),
    pickLatest l = some c → c ∈ l := by
  intro l
  induction l with
  | nil => intro c h; cases h
  | cons a as ih =>
    intro c h
    cases hp : pickLatest as with
    | none =>
      simp only [pickLatest, hp] at h
      cases h
      exact List.mem_cons_self a as
    | some d =>
      simp only [pickLatest, hp] at h
      by_cases hle : d.createdAt ≤ a.createdAt
      · rw [if_pos hle] at h
        cases h
        exact List.mem_cons_self a as
      · rw [if_neg hle] at h
        cases h
        exact List.mem_cons_of_mem a (ih _ hp)

/-- Helper: no row of the result set is newer than the picked one. -/
theorem pickLatest_max : ∀ (l : List CredentialRow) (c : CredentialRow),
    pickLatest l = some c → ∀ d ∈ l, d.createdAt ≤ c.createdAt := by
  intro l
  induction l with
  | nil => intro c _ d hd; cases hd
  | cons a as ih =>
    intro c h d hd
    cases hp : pickLatest as with
    | none =>
      have hasnil : as = [] := by
        cases as with
        | nil => rfl
        | cons b bs => exact absurd hp (pickLatest_ne_none b bs)
      subst hasnil
      simp only [pickLatest] at h
      cases h
      rcases List.mem_cons.mp hd with hda | hda
      · exact hda ▸ Nat.le_refl _
      · cases hda
    | some e =>
      simp only [pickLatest, hp] at h
      by_cases hle : e.createdAt ≤ a.createdAt
      · rw [if_pos hle] at h
        cases h
        rcases List.mem_cons.mp hd with hda | hda
        · exact hda ▸ Nat.le_refl _
        · exact Nat.le_trans (ih e hp d hda) hle
      · rw [if_neg hle] at h
        cases h
        rcases List.mem_cons.mp hd with hda | hda
        · exact hda ▸ Nat.le_of_lt (Nat.lt_of_not_le hle)
        · exact ih _ hp d hda

/-- C10: the auto-credential lookup searches active credentials of the
provider across all owners (no userId filter), returns a most recently
created one together with its decrypted secret, and returns none rather
than raising both when no active credential exists and when decryption
fails. -/
theorem C10_get_first_active (db : List CredentialRow)
    (decryptFn : String → Option String) (provider : String) :
    ((db.filter fun c => c.provider == provider && c.isActive) = [] →
      getFirstCredentialForProvider db decryptFn provider = none) ∧
    (∀ c : CredentialRow, findLatestActive db provider = some c →
      decryptFn c.encryptedCredentials = none →
      getFirstCredentialForProvider db decryptFn provider = none) ∧
    (∀ (cid prov creds : String) (act : Bool),
      getFirstCredentialForProvider db decryptFn provider =
        some (cid, prov, creds, act) →
      ∃ c : CredentialRow, c ∈ db ∧ c.id = cid ∧ prov = provider ∧ act = true ∧
        c.provider = provider ∧ c.isActive = true ∧
        decryptFn c.encryptedCredentials = some creds ∧
        ∀ d : CredentialRow, d ∈ db → d.provider = provider → d.isActive = true →
          d.createdAt ≤ c.createdAt) := by
  refine ⟨?_, ?_, ?_⟩
  · intro h
    simp [getFirstCredentialForProvider, findLatestActive, h, pickLatest]
  · intro c hc hd
    simp [getFirstCredentialForProvider, hc, hd]
  · intro cid prov creds act h
    unfold getFirstCredentialForProvider at h
    cases hf : findLatestActive db provider with
    | none => simp [hf] at h
    | some c =>
      rw [hf] at h
      have h2 : (match decryptFn c.encryptedCredentials with
          | none => none
          | some cr => some (c.id, c.provider, cr, c.isActive)) =
          some (cid, prov, creds, act) := h
      cases hd : decryptFn c.encryptedCredentials with
      | none => rw [hd] at h2; cases h2
      | some creds0 =>
        rw [hd] at h2
        injection h2 with h2
        simp only [Prod.mk.injEq] at h2
        obtain ⟨h1, hpr, h3, h4⟩ := h2
        have hmemf : c ∈ db.filter fun x => x.provider == provider && x.isActive :=
          pickLatest_mem _ c hf
        have hmem := List.mem_filter.mp hmemf
        have hprops : c.provider = provider ∧ c.isActive = true := by
          have hx := hmem.2
          simp only [Bool.and_eq_true, beq_iff_eq] at hx
          exact hx
        refine ⟨c, hmem.1, h1, ?_, ?_, hprops.1, hprops.2, h3 ▸ hd, ?_⟩
        · rw [← hpr, hprops.1]
        · rw [← h4, hprops.2]
        · intro d hdb hdp hda
          exact pickLatest_max _ c hf d
            (List.mem_filter.mpr ⟨hdb, by simp [hdp, hda]⟩)

/-- C10 witness: on a concrete table with two owners the lookup returns
the newest active netlify credential, which belongs to a different owner
than the older one. -/
theorem C10_get_first_active_witness :
    ∃ c : CredentialRow, c ∈ sampleCredDb ∧ c.id = "b" ∧
      "netlify" = "netlify" ∧ (true : Bool) = true ∧
      c.provider = "netlify" ∧ c.isActive = true ∧
      sampleDecrypt c.encryptedCredentials = some "tok-b" ∧
      ∀ d : CredentialRow, d ∈ sampleCredDb → d.provider = "netlify" →
        d.isActive = true → d.createdAt ≤ c.createdAt :=
  (C10_get_first_active sampleCredDb sampleDecrypt "netlify").2.2
    "b" "netlify" "tok-b" true (by decide)

/-- Helper: hex digit values below 16 round-trip. -/
theorem hexVal_hexDigit : ∀ n : Nat, n < 16 → hexVal (hexDigit n) = some n := by
  decide

/-- Helper: a hex digit is never a colon. -/
theorem hexDigit_ne_colon : ∀ n : Nat, n < 16 → hexDigit n ≠ ':' := by
  decide

/-- Helper: hex encoding of bytes parses back to the bytes. -/
theorem hexToBytes_flatten : ∀ bs : List Nat, (∀ b ∈ bs, b < 256) →
    hexToBytes (List.flatten (bs.map byteHex)) = some bs := by
  intro bs
  induction bs with
  | nil => intro _; rfl
  | cons b rest ih =>
    intro h
    have hb : b < 256 := h b (List.mem_cons_self b rest)
    have hdiv : b / 16 < 16 := by omega
    have hmod : b % 16 < 16 := by omega
    have hrest := ih (fun x hx => h x (List.mem_cons_of_mem b hx))
    simp only [List.map_cons, List.flatten_cons, byteHex, List.cons_append,
      List.nil_append]
    simp only [hexToBytes, hexVal_hexDigit _ hdiv, hexVal_hexDigit _ hmod, hrest,
      Option.bind_eq_bind, Option.some_bind]
    rw [Nat.div_add_mod b 16]
    rfl

/-- Helper: hex strings of bytes contain no colon. -/
theorem colon_not_mem_hex (bs : List Nat) (h : ∀ b ∈ bs, b < 256) :
    ':' ∉ List.flatten (bs.map byteHex) := by
  intro hmem
  rw [List.mem_flatten] at hmem
  obtain ⟨l, hl, hcl⟩ := hmem
  rw [List.mem_map] at hl
  obtain ⟨b, hb, rfl⟩ := hl
  have hb256 := h b hb
  have hdiv : b / 16 < 16 := by omega
  have hmod : b % 16 < 16 := by omega
  simp only [byteHex, List.mem_cons, List.not_mem_nil, or_false] at hcl
  rcases hcl with h1 | h1
  · exact hexDigit_ne_colon _ hdiv h1.symm
  · exact hexDigit_ne_colon _ hmod h1.symm

/-- Helper: splitting at the separator recovers the two colon-free
parts. -/
theorem splitAtColon_append (a b : List Char) (ha : ':' ∉ a) :
    splitAtColon (a ++ ':' :: b) = some (a, b) := by
  induction a with
  | nil => simp [splitAtColon]
  | cons c cs ih =>
    have hc : ¬(c = ':') := fun hh => ha (hh ▸ List.mem_cons_self c cs)
    have hcs : ':' ∉ cs := fun hh => ha (List.mem_cons_of_mem c hh)
    simp only [List.cons_append, splitAtColon, List.append_eq]
    rw [if_neg hc, ih hcs]

/-- Helper: the character data of the encrypted output. -/
theorem vaultEncrypt_data (E : List Nat → List Nat) (iv pt : List Nat) :
    (vaultEncrypt E iv pt).data =
      List.flatten (iv.map byteHex) ++ ':' ::
        List.flatten ((List.flatten (cbcEncryptBlocks E iv
          (chunks16 (pkcs7pad pt)))).map byteHex) := by
  simp [vaultEncrypt, bytesToHex, String.data_append]

/-- Helper: bytewise xor preserves the byte bound. -/
theorem xorBytes_lt : ∀ a b : List Nat, (∀ x ∈ a, x < 256) → (∀ x ∈ b, x < 256) →
    ∀ x ∈ xorBytes a b, x < 256 := by
  intro a
  induction a with
  | nil => intro b _ _ x hx; simp [xorBytes] at hx
  | cons p ps ih =>
    intro b ha hb x hx
    cases b with
    | nil => simp [xorBytes] at hx
    | cons q qs =>
      simp only [xorBytes, List.zipWith_cons_cons, List.mem_cons] at hx
      rcases hx with hx | hx
      · subst hx
        have h1 : p < 2 ^ 8 := ha p (List.mem_cons_self p ps)
        have h2 : q < 2 ^ 8 := hb q (List.mem_cons_self q qs)
        exact Nat.xor_lt_two_pow h1 h2
      · exact ih qs (fun y hy => ha y (List.mem_cons_of_mem p hy))
          (fun y hy => hb y (List.mem_cons_of_mem q hy)) x hx

/-- Helper: xor of a block is an involution. -/
theorem xorBytes_cancel : ∀ a b : List Nat, a.length = b.length →
    xorBytes a (xorBytes a b) = b := by
  intro a
  induction a with
  | nil =>
    intro b h
    cases b with
    | nil => rfl
    | cons q qs => simp at h
  | cons p ps ih =>
    intro b h
    cases b with
    | nil => simp at h
    | cons q qs =>
      have hh : xorBytes (p :: ps) (q :: qs) = (p ^^^ q) :: xorBytes ps qs := rfl
      rw [hh]
      have hh2 : xorBytes (p :: ps) ((p ^^^ q) :: xorBytes ps qs)
          = (p ^^^ (p ^^^ q)) :: xorBytes ps (xorBytes ps qs) := rfl
      rw [hh2, Nat.xor_cancel_left, ih qs (by simpa using h)]

/-- Helper: length of the bytewise xor. -/
theorem xorBytes_length (a b : List Nat) :
    (xorBytes a b).length = min a.length b.length := by
  simp [xorBytes]

/-- Helper: the xor of two blocks is a block. -/
theorem Block16_xor (a b : List Nat) (ha : Block16 a) (hb : Block16 b) :
    Block16 (xorBytes a b) := by
  refine ⟨?_, xorBytes_lt a b ha.2 hb.2⟩
  rw [xorBytes_length, ha.1, hb.1]
  exact Nat.min_self 16

/-- Helper: every ciphertext block produced by CBC encryption of valid
blocks is a valid block. -/
theorem cbcEncrypt_valid (E : List Nat → List Nat)
    (hE : ∀ b, Block16 b → Block16 (E b)) :
    ∀ (blocks : List (List Nat)) (prev : List Nat), Block16 prev →
      (∀ b ∈ blocks, Block16 b) →
      ∀ c ∈ cbcEncryptBlocks E prev blocks, Block16 c := by
  intro blocks
  induction blocks with
  | nil => intro prev _ _ c hc; simp [cbcEncryptBlocks] at hc
  | cons b bs ih =>
    intro prev hprev hbl c hc
    simp only [cbcEncryptBlocks, List.mem_cons] at hc
    have hcb : Block16 (E (xorBytes prev b)) :=
      hE _ (Block16_xor prev b hprev (hbl b (List.mem_cons_self b bs)))
    rcases hc with rfl | hc
    · exact hcb
    · exact ih _ hcb (fun x hx => hbl x (List.mem_cons_of_mem b hx)) c hc

/-- Helper: CBC decryption inverts CBC encryption over valid blocks. -/
theorem cbc_roundtrip (E D : List Nat → List Nat)
    (hE : ∀ b, Block16 b → Block16 (E b))
    (hD : ∀ b, Block16 b → D (E b) = b) :
    ∀ (blocks : List (List Nat)) (prev : List Nat), Block16 prev →
      (∀ b ∈ blocks, Block16 b) →
      cbcDecryptBlocks D prev (cbcEncryptBlocks E prev blocks) = blocks := by
  intro blocks
  induction blocks with
  | nil => intro prev _ _; rfl
  | cons b bs ih =>
    intro prev hprev hbl
    have hb := hbl b (List.mem_cons_self b bs)
    have hxb : Block16 (xorBytes prev b) := Block16_xor prev b hprev hb
    simp only [cbcEncryptBlocks, cbcDecryptBlocks]
    rw [hD _ hxb, xorBytes_cancel prev b (by rw [hprev.1, hb.1]),
      ih _ (hE _ hxb) (fun x hx => hbl x (List.mem_cons_of_mem b hx))]

/-- Helper: the chunking fuel does not matter once it covers the
length. -/
theorem chunks16Fuel_congr : ∀ (f g : Nat) (bs : List Nat), bs.length ≤ f →
    bs.length ≤ g → chunks16Fuel f bs = chunks16Fuel g bs := by
  intro f
  induction f with
  | zero =>
    intro g bs hf _
    have hnil : bs = [] := List.eq_nil_of_length_eq_zero (Nat.le_zero.mp hf)
    subst hnil
    cases g <;> simp [chunks16Fuel]
  | succ f ih =>
    intro g bs hf hg
    cases g with
    | zero =>
      have hnil : bs = [] := List.eq_nil_of_length_eq_zero (Nat.le_zero.mp hg)
      subst hnil
      simp [chunks16Fuel]
    | succ g =>
      by_cases hnil : bs = []
      · subst hnil
        simp [chunks16Fuel]
      · have hpos : 0 < bs.length := List.length_pos.mpr hnil
        simp only [chunks16Fuel, if_neg hnil]
        exact congrArg (bs.take 16 :: ·)
          (ih g (bs.drop 16)
            (by simp only [List.length_drop]; omega)
            (by simp only [List.length_drop]; omega))

/-- Helper: the one-step unfolding of chunks16. -/
theorem chunks16_eq (bs : List Nat) :
    chunks16 bs = if bs = [] then [] else bs.take 16 :: chunks16 (bs.drop 16) := by
  cases bs with
  | nil => rfl
  | cons c cs =>
    rw [if_neg (List.cons_ne_nil c cs)]
    show chunks16Fuel ((c :: cs).length) (c :: cs) = _
    simp only [List.length_cons, chunks16Fuel, if_neg (List.cons_ne_nil c cs)]
    exact congrArg ((c :: cs).take 16 :: ·)
      (chunks16Fuel_congr cs.length ((c :: cs).drop 16).length ((c :: cs).drop 16)
        (by simp only [List.length_drop, List.length_cons]; omega) (Nat.le_refl _))

/-- Helper: chunking a byte sequence whose length is a multiple of 16
yields 16-byte chunks that flatten back to the sequence. -/
theorem chunks16_spec : ∀ (n : Nat) (bs : List Nat), bs.length ≤ n →
    bs.length % 16 = 0 →
    (∀ c ∈ chunks16 bs, c.length = 16) ∧ List.flatten (chunks16 bs) = bs := by
  intro n
  induction n with
  | zero =>
    intro bs hle _
    have hnil : bs = [] := List.eq_nil_of_length_eq_zero (Nat.le_zero.mp hle)
    subst hnil
    rw [chunks16_eq]
    simp
  | succ n ih =>
    intro bs hle hmod
    by_cases hnil : bs = []
    · subst hnil
      rw [chunks16_eq]
      simp
    · rw [chunks16_eq, if_neg hnil]
      have hpos : 0 < bs.length := List.length_pos.mpr hnil
      have h16 : 16 ≤ bs.length := by omega
      have hdl : (bs.drop 16).length = bs.length - 16 := by simp
      have ihd := ih (bs.drop 16) (by omega) (by omega)
      constructor
      · intro c hc
        rcases List.mem_cons.mp hc with hc | hc
        · subst hc
          simp [List.length_take]
          omega
        · exact ihd.1 c hc
      · rw [List.flatten_cons, ihd.2, List.take_append_drop]

/-- Helper: the chunks of a padded plaintext are valid blocks. -/
theorem chunks16_pad_blocks (pt : List Nat) (hpt : ∀ x ∈ pt, x < 256) :
    ∀ c ∈ chunks16 (pkcs7pad pt), Block16 c := by
  have hmod : (pkcs7pad pt).length % 16 = 0 := by
    simp only [pkcs7pad, List.length_append, List.length_replicate]
    omega
  have hspec := chunks16_spec (pkcs7pad pt).length (pkcs7pad pt) (Nat.le_refl _) hmod
  intro c hc
  refine ⟨hspec.1 c hc, ?_⟩
  intro x hx
  have hxin : x ∈ List.flatten (chunks16 (pkcs7pad pt)) :=
    List.mem_flatten.mpr ⟨c, hc, hx⟩
  rw [hspec.2, pkcs7pad] at hxin
  rcases List.mem_append.mp hxin with hxp | hxr
  · exact hpt x hxp
  · have := (List.eq_of_mem_replicate hxr)
    omega

/-- Helper: chunking the flattening of 16-byte blocks recovers them. -/
theorem chunks16_flatten : ∀ blocks : List (List Nat),
    (∀ b ∈ blocks, b.length = 16) →
    chunks16 (List.flatten blocks) = blocks := by
  intro blocks
  induction blocks with
  | nil =>
    intro _
    rw [chunks16_eq]
    simp
  | cons b bs ih =>
    intro h
    have hb := h b (List.mem_cons_self b bs)
    have hbne : b ≠ [] := by
      intro hh
      rw [hh] at hb
      simp at hb
    have hnil : List.flatten (b :: bs) ≠ [] := by
      rw [List.flatten_cons]
      intro hh
      exact hbne (List.append_eq_nil.mp hh).1
    rw [chunks16_eq, if_neg hnil, List.flatten_cons, ← hb, List.take_left,
      List.drop_left, ih (fun x hx => h x (List.mem_cons_of_mem b hx))]

/-- Helper: PKCS#7 unpadding inverts the padding. -/
theorem pkcs7unpad_pad (bs : List Nat) : pkcs7unpad (pkcs7pad bs) = some bs := by
  have hr : bs.length % 16 < 16 := Nat.mod_lt _ (by omega)
  have hp1 : 1 ≤ 16 - bs.length % 16 := by omega
  have hp16 : 16 - bs.length % 16 ≤ 16 := by omega
  obtain ⟨k, hk⟩ : ∃ k, 16 - bs.length % 16 = k + 1 := ⟨16 - bs.length % 16 - 1, by omega⟩
  have hlen : (pkcs7pad bs).length = bs.length + (16 - bs.length % 16) := by
    simp [pkcs7pad]
  have hhead : (pkcs7pad bs).reverse.head? = some (16 - bs.length % 16) := by
    rw [pkcs7pad, List.reverse_append, List.reverse_replicate, hk,
      List.replicate_succ, List.cons_append, List.head?_cons]
  have hcond : ¬(16 - bs.length % 16 = 0 ∨ 16 < 16 - bs.length % 16 ∨
      (pkcs7pad bs).length < 16 - bs.length % 16) := by
    intro hor
    rcases hor with h | h | h
    · omega
    · omega
    · rw [hlen] at h
      omega
  have hsub : bs.length + (16 - bs.length % 16) - (16 - bs.length % 16) =
      bs.length := by omega
  have hdrop : (pkcs7pad bs).drop ((pkcs7pad bs).length - (16 - bs.length % 16)) =
      List.replicate (16 - bs.length % 16) (16 - bs.length % 16) := by
    rw [hlen, hsub, pkcs7pad, List.drop_left]
  have htake : (pkcs7pad bs).take ((pkcs7pad bs).length - (16 - bs.length % 16)) =
      bs := by
    rw [hlen, hsub, pkcs7pad, List.take_left]
  have hall : ((pkcs7pad bs).drop ((pkcs7pad bs).length -
      (16 - bs.length % 16))).all (· == (16 - bs.length % 16)) = true := by
    rw [hdrop, List.all_eq_true]
    intro x hx
    rw [List.eq_of_mem_replicate hx]
    exact beq_self_eq_true _
  unfold pkcs7unpad
  rw [hhead]
  show (if 16 - bs.length % 16 = 0 ∨ 16 < 16 - bs.length % 16 ∨
      (pkcs7pad bs).length < 16 - bs.length % 16 then none
    else if ((pkcs7pad bs).drop ((pkcs7pad bs).length -
        (16 - bs.length % 16))).all (· == (16 - bs.length % 16)) then
      some ((pkcs7pad bs).take ((pkcs7pad bs).length - (16 - bs.length % 16)))
    else none) = some bs
  rw [if_neg hcond, if_pos hall, htake]

/-- Helper: decrypt inverts encrypt for a 16-byte IV and byte-valued
plaintext, for any block permutation E with inverse D. -/
theorem vaultDecrypt_vaultEncrypt (E D : List Nat → List Nat)
    (hE : ∀ b, Block16 b → Block16 (E b))
    (hD : ∀ b, Block16 b → D (E b) = b)
    (iv pt : List Nat) (hiv : Block16 iv) (hpt : ∀ x ∈ pt, x < 256) :
    vaultDecrypt D (vaultEncrypt E iv pt) = some pt := by
  have hblocks : ∀ c ∈ chunks16 (pkcs7pad pt), Block16 c :=
    chunks16_pad_blocks pt hpt
  have hmod : (pkcs7pad pt).length % 16 = 0 := by
    simp only [pkcs7pad, List.length_append, List.length_replicate]
    omega
  have hjoin : List.flatten (chunks16 (pkcs7pad pt)) = pkcs7pad pt :=
    (chunks16_spec _ _ (Nat.le_refl _) hmod).2
  have hcts : ∀ c ∈ cbcEncryptBlocks E iv (chunks16 (pkcs7pad pt)), Block16 c :=
    cbcEncrypt_valid E hE _ iv hiv hblocks
  have hctbytes : ∀ x ∈ List.flatten (cbcEncryptBlocks E iv
      (chunks16 (pkcs7pad pt))), x < 256 := by
    intro x hx
    obtain ⟨c, hc, hxc⟩ := List.mem_flatten.mp hx
    exact (hcts c hc).2 x hxc
  unfold vaultDecrypt
  rw [vaultEncrypt_data, splitAtColon_append _ _ (colon_not_mem_hex iv hiv.2)]
  show (match hexToBytes (List.flatten (iv.map byteHex)),
      hexToBytes (List.flatten ((List.flatten (cbcEncryptBlocks E iv
        (chunks16 (pkcs7pad pt)))).map byteHex)) with
    | some ivp, some ct =>
        pkcs7unpad (List.flatten (cbcDecryptBlocks D ivp (chunks16 ct)))
    | _, _ => none) = some pt
  rw [hexToBytes_flatten iv hiv.2, hexToBytes_flatten _ hctbytes]
  show pkcs7unpad (List.flatten (cbcDecryptBlocks D iv (chunks16 (List.flatten
    (cbcEncryptBlocks E iv (chunks16 (pkcs7pad pt))))))) = some pt
  rw [chunks16_flatten _ (fun c hc => (hcts c hc).1),
    cbc_roundtrip E D hE hD _ iv hiv hblocks, hjoin, pkcs7unpad_pad]

/-- Helper: equal ciphertext strings force equal embedded nonces. -/
theorem vaultEncrypt_iv_inj (E : List Nat → List Nat) (iv1 iv2 pt : List Nat)
    (h1 : Block16 iv1) (h2 : Block16 iv2)
    (heq : vaultEncrypt E iv1 pt = vaultEncrypt E iv2 pt) : iv1 = iv2 := by
  have hsp : splitAtColon (vaultEncrypt E iv1 pt).data =
      splitAtColon (vaultEncrypt E iv2 pt).data := by rw [heq]
  rw [vaultEncrypt_data, vaultEncrypt_data,
    splitAtColon_append _ _ (colon_not_mem_hex iv1 h1.2),
    splitAtColon_append _ _ (colon_not_mem_hex iv2 h2.2)] at hsp
  injection hsp with hsp
  have hfst : List.flatten (iv1.map byteHex) = List.flatten (iv2.map byteHex) :=
    congrArg Prod.fst hsp
  have hbytes := congrArg hexToBytes hfst
  rw [hexToBytes_flatten iv1 h1.2, hexToBytes_flatten iv2 h2.2] at hbytes
  injection hbytes

/-- C4: the vault round-trips: decrypt(encrypt(x)) = x for every byte
string x up to a bounded length, under any block permutation E with
inverse D (abstracting AES-256 under the scrypt-derived key) and any
16-byte IV; and two encryptions of the same plaintext under distinct
fresh nonces produce different ciphertext strings, because each
ciphertext embeds its nonce as the hex prefix before the colon. -/
theorem C4_vault_roundtrip (E D : List Nat → List Nat)
    (hE : ∀ b, Block16 b → Block16 (E b))
    (hD : ∀ b, Block16 b → D (E b) = b)
    (iv iv2 pt : List Nat) (hiv : Block16 iv) (hiv2 : Block16 iv2)
    (hpt : ∀ x ∈ pt, x < 256) (hlen : pt.length ≤ 4096) :
    vaultDecrypt D (vaultEncrypt E iv pt) = some pt ∧
    (iv ≠ iv2 → vaultEncrypt E iv pt ≠ vaultEncrypt E iv2 pt) := by
  refine ⟨vaultDecrypt_vaultEncrypt E D hE hD iv pt hiv hpt, ?_⟩
  intro hne heq
  exact hne (vaultEncrypt_iv_inj E iv iv2 pt hiv hiv2 heq)

/-- C4 witness: a concrete round-trip and nonce-distinctness instance
with the identity block permutation. -/
theorem C4_vault_roundtrip_witness :
    vaultDecrypt id (vaultEncrypt id tamperIV (List.replicate 5 104)) =
      some (List.replicate 5 104) ∧
    (tamperIV ≠ tamperIV2 →
      vaultEncrypt id tamperIV (List.replicate 5 104) ≠
        vaultEncrypt id tamperIV2 (List.replicate 5 104)) :=
  C4_vault_roundtrip id id (fun _ hb => hb) (fun _ _ => rfl) tamperIV tamperIV2
    (List.replicate 5 104) ⟨rfl, by decide⟩ ⟨rfl, by decide⟩ (by decide) (by decide)

/-- C9: the vault does NOT detect tampering: the implementation is
aes-256-cbc (the declared aes-256-gcm algorithm field is never used), an
unauthenticated mode, so decrypting a ciphertext whose embedded nonce
byte was flipped succeeds and silently returns an altered plaintext
(first byte 65 xor 255 = 190) instead of failing; the untampered
ciphertext still decrypts to the original. The fixed-salt 256-bit key
derivation and the 128-bit random embedded nonce parts of the claim do
hold in the code. -/
theorem C9_tamper_undetected :
    vaultDecrypt id tamperedCiphertext = some tamperResult ∧
    tamperResult ≠ tamperPT ∧
    vaultDecrypt id (vaultEncrypt id tamperIV tamperPT) = some tamperPT := by
  refine ⟨by decide, by decide, by decide⟩
